import Mathlib

/-! Shallow embedding of the portfolio-metrics engine of
`src/AssetPortfolioApp.tsx` (Personal-Asset-Management, React single-file MVP).

Conventions of the embedding:

* JavaScript IEEE-754 doubles are idealized as exact rationals (`ℚ`).
* A raw numeric record field is `Option ℚ`: `some q` models any JS value that
  `Number(...)` coerces to the finite number `q`; `none` models anything that
  coerces to a non-finite value (then `ensureNumber` yields the fallback).
* The places where the code itself can produce a non-finite derived value —
  `pnlPct`, which divides by a possibly-zero average price, and the KRW→USD
  branch of `toBase`, which divides by the manual rate (a finite `0` passes
  `ensureNumber` untouched) — are modelled with the explicit `JSNum` domain
  carrying `NaN` and `±Infinity`, and non-finiteness is propagated through
  `totalsByType` and `allocationActual` with JS arithmetic.  The source's
  `sum` helper counts non-finite entries as `0` (`sumNums`).
* `Array.prototype.sort` is stable per ECMAScript 2019; a stable sort by a
  total preorder has a uniquely determined result, so it is modelled by a
  stable insertion sort (`sortDescBy`).
* JS objects used as keyed maps (`flows`, `totals`) are modelled as functions
  `String → Option ℚ` resp. `AssetType → ℚ`; an absent key is `none` resp.
  contributes `0`, matching the code's `?? 0` / `ensureNumber` reads.
-/

namespace Portfolio

/-- `const CURRENCIES = ["KRW", "USD"]` — closed currency set. -/
inductive Currency where
  | KRW
  | USD
deriving DecidableEq

/-- `const ASSET_TYPES = ["Cash","Stock","ETF","Bond","Crypto","Real Estate","Other"]`. -/
inductive AssetType where
  | Cash
  | Stock
  | ETF
  | Bond
  | Crypto
  | RealEstate
  | Other
deriving DecidableEq

/-- The fixed enumeration order of the seven asset types. -/
def ASSET_TYPES : List AssetType :=
  [AssetType.Cash, AssetType.Stock, AssetType.ETF, AssetType.Bond,
   AssetType.Crypto, AssetType.RealEstate, AssetType.Other]

/-- Position of an asset type in the `ASSET_TYPES` enumeration. -/
def typeIdx : AssetType → Nat
  | AssetType.Cash => 0
  | AssetType.Stock => 1
  | AssetType.ETF => 2
  | AssetType.Bond => 3
  | AssetType.Crypto => 4
  | AssetType.RealEstate => 5
  | AssetType.Other => 6

/-- `const TX_TYPES = ["Deposit","Withdraw","Buy","Sell","Income","Expense"]`. -/
inductive TxType where
  | Deposit
  | Withdraw
  | Buy
  | Sell
  | Income
  | Expense
deriving DecidableEq

/-- `function ensureNumber(n, fallback = 0) { const x = Number(n); return
Number.isFinite(x) ? x : fallback; }` — `none` stands for any input whose
numeric coercion is non-finite. -/
def ensureNumber (n : Option ℚ) (fallback : ℚ) : ℚ :=
  n.getD fallback

/-- Account record: `{ id, name, type, currency, openingBalance }`. -/
structure Account where
  id : String
  name : String
  type : AssetType
  currency : Currency
  openingBalance : Option ℚ
deriving DecidableEq

/-- Transaction record: `{ id, date, accountId, type, amount, fee, tax, note }`. -/
structure Tx where
  id : String
  date : String
  accountId : String
  type : TxType
  amount : Option ℚ
  fee : Option ℚ
  tax : Option ℚ
  note : String
deriving DecidableEq

/-- Position record:
`{ id, accountId, symbol, name, assetType, qty, avgPrice, currency, lastPrice }`. -/
structure Position where
  id : String
  accountId : String
  symbol : String
  name : String
  assetType : AssetType
  qty : Option ℚ
  avgPrice : Option ℚ
  currency : Currency
  lastPrice : Option ℚ
deriving DecidableEq

/-- Goal record: `{ id, name, target, deadline, accountIds, note }`. -/
structure Goal where
  id : String
  name : String
  target : ℚ
  deadline : String
  accountIds : List String
  note : String
deriving DecidableEq

/-- Settings: `{ baseCurrency, usdKrw, riskProfile, showAdvanced }` (the two
non-numeric presentation fields are irrelevant to the engine and omitted). -/
structure Settings where
  baseCurrency : Currency
  usdKrw : Option ℚ
deriving DecidableEq

/-- `targets: { allocation, driftThreshold }`; `allocation[t]` may be absent
(the code reads it with `?? 0`). -/
structure Targets where
  allocation : AssetType → Option ℚ
  driftThreshold : Option ℚ

/-- The whole persisted record set
`{ settings, accounts[], transactions[], positions[], goals[], targets }`. -/
structure RecordSet where
  settings : Settings
  accounts : List Account
  transactions : List Tx
  positions : List Position
  goals : List Goal
  targets : Targets

/-- JS number domain for the engine expressions that can produce a non-finite
value: the unguarded `pnlPct` division and the KRW→USD conversion, whose
divisor `ensureNumber(usdKrw, 1350)` is `0` whenever the manually entered rate
is the (finite) number `0`. -/
inductive JSNum where
  | num (q : ℚ)
  | nan
  | inf
  | ninf
deriving DecidableEq

/-- Whether a `JSNum` is `NaN`. -/
def JSNum.isNaN : JSNum → Bool
  | JSNum.nan => true
  | _ => false

/-- Whether a `JSNum` is a finite number. -/
def JSNum.isFinite : JSNum → Bool
  | JSNum.num _ => true
  | _ => false

/-- JS division of two finite numbers: `a / 0` is `NaN` for `a = 0` and
`±Infinity` otherwise (ℚ has no negative zero, so the `+0` divisor case is the
one modelled). -/
def jsDiv (a b : ℚ) : JSNum :=
  if b = 0 then (if a = 0 then JSNum.nan else if 0 < a then JSNum.inf else JSNum.ninf)
  else JSNum.num (a / b)

/-- JS subtraction of a finite constant: `NaN` and `±Infinity` absorb. -/
def jsSubC (x : JSNum) (c : ℚ) : JSNum :=
  match x with
  | JSNum.num q => JSNum.num (q - c)
  | e => e

/-- JS multiplication by a finite constant: `NaN` absorbs; `±Infinity` flips
with the sign of the constant and becomes `NaN` against `0`. -/
def jsMulC (x : JSNum) (c : ℚ) : JSNum :=
  match x with
  | JSNum.num q => JSNum.num (q * c)
  | JSNum.nan => JSNum.nan
  | JSNum.inf => if c = 0 then JSNum.nan else if 0 < c then JSNum.inf else JSNum.ninf
  | JSNum.ninf => if c = 0 then JSNum.nan else if 0 < c then JSNum.ninf else JSNum.inf

/-- JS division by a finite constant: `NaN` absorbs; `±Infinity` keeps its sign
against a nonnegative divisor and flips against a negative one. -/
def jsDivC (x : JSNum) (c : ℚ) : JSNum :=
  match x with
  | JSNum.num q => jsDiv q c
  | JSNum.nan => JSNum.nan
  | JSNum.inf => if c < 0 then JSNum.ninf else JSNum.inf
  | JSNum.ninf => if c < 0 then JSNum.inf else JSNum.ninf

/-- JS addition: `NaN` absorbs, `Infinity + (-Infinity)` is `NaN`, an infinity
absorbs any finite summand. -/
def jsAdd : JSNum → JSNum → JSNum
  | JSNum.num a, JSNum.num b => JSNum.num (a + b)
  | JSNum.nan, _ => JSNum.nan
  | _, JSNum.nan => JSNum.nan
  | JSNum.inf, JSNum.ninf => JSNum.nan
  | JSNum.ninf, JSNum.inf => JSNum.nan
  | JSNum.inf, _ => JSNum.inf
  | _, JSNum.inf => JSNum.inf
  | JSNum.ninf, _ => JSNum.ninf
  | _, JSNum.ninf => JSNum.ninf

/-- The source's `sum` helper,
`arr.reduce((a, b) => a + (Number.isFinite(b) ? b : 0), 0)`: a non-finite entry
is counted as `0`, so the result is always a finite number. -/
def sumNums (arr : List JSNum) : ℚ :=
  arr.foldl
    (fun a b =>
      a + match b with
          | JSNum.num q => q
          | _ => 0)
    0

/-- Plain JS summation of a list of numbers (used to state what the
percentages of the allocation add up to). -/
def jsSumList (l : List JSNum) : JSNum :=
  l.foldl jsAdd (JSNum.num 0)

/-- `toBase(amount, currency)` with `fx.USD_KRW = ensureNumber(state.settings.usdKrw, 1350)`.
The engine only ever converts finite amounts (balances and `qty * lastPrice`),
so the argument is ℚ; the KRW→USD branch divides by the manual rate, which can
be the finite number `0`, so the result lives in `JSNum`. -/
def toBase (settings : Settings) (amount : ℚ) (currency : Currency) : JSNum :=
  if settings.baseCurrency = currency then JSNum.num amount
  else if currency = Currency.USD ∧ settings.baseCurrency = Currency.KRW then
    JSNum.num (amount * ensureNumber settings.usdKrw 1350)
  else if currency = Currency.KRW ∧ settings.baseCurrency = Currency.USD then
    jsDiv amount (ensureNumber settings.usdKrw 1350)
  else JSNum.num amount

/-- One step of the `cashFlows` fold over transactions.  The code's
`if (!flows[t.accountId]) flows[t.accountId] = 0;` reads an absent key and a
zero value alike as `0`, i.e. `(flows t.accountId).getD 0`. -/
def applyTx (flows : String → Option ℚ) (t : Tx) : String → Option ℚ :=
  let amt := ensureNumber t.amount 0 - ensureNumber t.fee 0 - ensureNumber t.tax 0
  let cur := (flows t.accountId).getD 0
  let next :=
    match t.type with
    | TxType.Deposit | TxType.Income | TxType.Sell => cur + amt
    | TxType.Withdraw | TxType.Expense | TxType.Buy => cur - amt
  fun i => if i = t.accountId then some next else flows i

/-- One step of the opening-balance loop:
`flows[a.id] = ensureNumber(a.openingBalance)`. -/
def flowsStep (flows : String → Option ℚ) (a : Account) : String → Option ℚ :=
  fun i => if i = a.id then some (ensureNumber a.openingBalance 0) else flows i

/-- `for (const a of state.accounts) flows[a.id] = ensureNumber(a.openingBalance);`
(a later account with the same id overwrites an earlier one). -/
def flowsInit (accounts : List Account) : String → Option ℚ :=
  accounts.foldl flowsStep (fun _ => none)

/-- The `cashFlows` memo: opening balances, then every transaction folded in
order (`computeAccountBalances` of the spec). -/
def cashFlows (accounts : List Account) (txs : List Tx) : String → Option ℚ :=
  txs.foldl applyTx (flowsInit accounts)

/-- One row of the `accountBalances` memo.  The balance in the account's own
currency is always finite; the base-currency balance goes through `toBase` and
can be non-finite when the manual rate is zero. -/
structure AccountBal where
  acct : Account
  balance : ℚ
  balanceBase : JSNum
deriving DecidableEq

/-- `accountBalances = state.accounts.map(a => ({...a,
balance: ensureNumber(cashFlows[a.id]),
balanceBase: toBase(ensureNumber(cashFlows[a.id]), a.currency)}))`. -/
def accountBalances (s : RecordSet) : List AccountBal :=
  s.accounts.map (fun a =>
    { acct := a
      balance := (cashFlows s.accounts s.transactions a.id).getD 0
      balanceBase :=
        toBase s.settings ((cashFlows s.accounts s.transactions a.id).getD 0) a.currency })

/-- `pnlPct: (ensureNumber(p.lastPrice) / ensureNumber(p.avgPrice) - 1) * 100`
under JS arithmetic. -/
def pnlPctOf (p : Position) : JSNum :=
  jsMulC (jsSubC (jsDiv (ensureNumber p.lastPrice 0) (ensureNumber p.avgPrice 0)) 1) 100

/-- One row of the `positionsMV` memo. -/
structure PosMV where
  pos : Position
  marketValue : ℚ
  marketValueBase : JSNum
  pnl : ℚ
  pnlPct : JSNum
deriving DecidableEq

/-- `positionsMV = state.positions.map(p => ({...p,
marketValue: ensureNumber(p.qty) * ensureNumber(p.lastPrice),
marketValueBase: toBase(ensureNumber(p.qty) * ensureNumber(p.lastPrice), p.currency),
pnl: (ensureNumber(p.lastPrice) - ensureNumber(p.avgPrice)) * ensureNumber(p.qty),
pnlPct: (ensureNumber(p.lastPrice) / ensureNumber(p.avgPrice) - 1) * 100}))`. -/
def positionsMV (s : RecordSet) : List PosMV :=
  s.positions.map (fun p =>
    { pos := p
      marketValue := ensureNumber p.qty 0 * ensureNumber p.lastPrice 0
      marketValueBase :=
        toBase s.settings (ensureNumber p.qty 0 * ensureNumber p.lastPrice 0) p.currency
      pnl := (ensureNumber p.lastPrice 0 - ensureNumber p.avgPrice 0) * ensureNumber p.qty 0
      pnlPct := pnlPctOf p })

/-- The `totalsByType` memo: accounts contribute `balanceBase` under their
`type`, positions contribute `marketValueBase` under their `assetType`, added
with JS addition (a non-finite contribution poisons its type's total).  The
keyed JS object is modelled as a total function where an absent key holds `0`
(the code reads absent keys with `?? 0`). -/
def totalsByType (s : RecordSet) : AssetType → JSNum :=
  let fromAccounts :=
    (accountBalances s).foldl
      (fun totals ab => fun t =>
        if t = ab.acct.type then jsAdd (totals t) ab.balanceBase else totals t)
      (fun _ => JSNum.num 0)
  (positionsMV s).foldl
    (fun totals p => fun t =>
      if t = p.pos.assetType then jsAdd (totals t) p.marketValueBase else totals t)
    fromAccounts

/-- `totalAssetsBase = sum(Object.values(totalsByType))` with the source's
`sum` helper, which counts a non-finite value as `0` — so the grand total is
always finite even when a per-type total is not.  Keys absent from the JS
object hold `0` in the total-function representation and contribute nothing,
so summing over all seven types equals summing the present values. -/
def totalAssetsBase (s : RecordSet) : ℚ :=
  sumNums (ASSET_TYPES.map (totalsByType s))

/-- `allocationActual`: for every declared asset type,
`totalAssetsBase > 0 ? (v / totalAssetsBase) * 100 : 0` under JS arithmetic
(a non-finite per-type total yields a non-finite percentage). -/
def allocationActual (s : RecordSet) : AssetType → JSNum :=
  fun t =>
    let v := totalsByType s t
    if 0 < totalAssetsBase s then jsMulC (jsDivC v (totalAssetsBase s)) 100
    else JSNum.num 0

/-- One entry of the `drift` list: `{ type, target, actual, diff }`. -/
structure DriftEntry where
  type : AssetType
  target : ℚ
  actual : ℚ
  diff : ℚ
deriving DecidableEq

/-- Stable insertion (descending by `key`): the new element goes before the
first element with a key that is not strictly greater. -/
def insertDescBy (key : α → ℚ) (x : α) : List α → List α
  | [] => [x]
  | y :: ys => if key x < key y then y :: insertDescBy key x ys else x :: y :: ys

/-- Stable sort, descending by `key` — the model of a JS
`Array.prototype.sort` call with comparator `(a, b) => key(b) - key(a)`
(stable by ECMAScript 2019; a stable sort is uniquely determined). -/
def sortDescBy (key : α → ℚ) (l : List α) : List α :=
  l.foldr (insertDescBy key) []

/-- The unsorted `out` list built by the `drift` memo:
`{ type: t, target: allocation[t] ?? 0, actual: actual[t] ?? 0, diff: actual - target }`
for `t` over `ASSET_TYPES` in enumeration order. -/
def driftRaw (target : AssetType → Option ℚ) (actual : AssetType → ℚ) : List DriftEntry :=
  ASSET_TYPES.map (fun t =>
    { type := t
      target := (target t).getD 0
      actual := actual t
      diff := actual t - (target t).getD 0 })

/-- `out.sort((a, b) => Math.abs(b.diff) - Math.abs(a.diff))`.  The component
instantiates `actual` with the `allocationActual` values; the drift claims
quantify over the target/actual maps themselves (the non-finite `actual`
values possible at rate 0 are characterized separately for C6). -/
def driftList (target : AssetType → Option ℚ) (actual : AssetType → ℚ) : List DriftEntry :=
  sortDescBy (fun d => |d.diff|) (driftRaw target actual)

/-- `rebalanceAlerts = drift.filter(d => Math.abs(d.diff) >= (state.targets.driftThreshold ?? 5))`. -/
def rebalanceAlerts (driftL : List DriftEntry) (threshold : Option ℚ) : List DriftEntry :=
  driftL.filter (fun d => threshold.getD 5 ≤ |d.diff|)

/-- The advisory content of a successful `suggestRebalance` alert. -/
structure Suggestion where
  over : DriftEntry
  under : DriftEntry
  movePct : ℚ
  moveAmount : ℚ
deriving DecidableEq

/-- `suggestRebalance`: first element of the positive-diff entries sorted
descending by diff, first element of the negative-diff entries sorted
ascending by diff (descending by `-diff`); `none` models the
`if (!over || !under)` no-suggestion alert. -/
def suggestRebalance (driftL : List DriftEntry) (totalAssetsBase : ℚ) : Option Suggestion :=
  let over := (sortDescBy (fun d => d.diff) (driftL.filter (fun d => 0 < d.diff))).head?
  let under := (sortDescBy (fun d => -d.diff) (driftL.filter (fun d => d.diff < 0))).head?
  match over, under with
  | some o, some u =>
      some { over := o, under := u, movePct := min o.diff (-u.diff),
             moveAmount := totalAssetsBase * (min o.diff (-u.diff) / 100) }
  | _, _ => none

/-- `removeAccount(id)`: drop the account and filter out every transaction and
position whose `accountId` equals the removed id; all other fields of the
record set are spread through unchanged. -/
def removeAccount (s : RecordSet) (accId : String) : RecordSet :=
  { s with
    accounts := s.accounts.filter (fun a => a.id ≠ accId)
    transactions := s.transactions.filter (fun t => t.accountId ≠ accId)
    positions := s.positions.filter (fun p => p.accountId ≠ accId) }

/-- `progressFor(goal)`: linked accounts are the balance rows whose id the
goal's `accountIds` includes; `val` is `sum(...)` of their `balanceBase` (the
source's `sum` helper counts a non-finite entry as 0, so `val` is finite);
`pct = goal.target > 0 ? (val / goal.target) * 100 : 0`. -/
def progressFor (balances : List AccountBal) (g : Goal) : ℚ × ℚ :=
  let linked := balances.filter (fun ab => g.accountIds.contains ab.acct.id)
  let val := sumNums (linked.map (fun ab => ab.balanceBase))
  let pct := if 0 < g.target then val / g.target * 100 else 0
  (val, pct)

/-- `importJSON`: `JSON.parse` of the file text is modelled by an abstract
`parse` function (`none` = the parse threw).  On success the whole state is
replaced; on failure an alert is shown (the `Bool` result) and the state is
kept.  Mirrors the `try { setState(JSON.parse(...)) } catch { alert(...) }`
body of the reader callback. -/
def importJSON (parse : String → Option RecordSet) (text : String) (current : RecordSet) :
    RecordSet × Bool :=
  match parse text with
  | some next => (next, false)
  | none => (current, true)

/-- Signed base effect of one transaction on its account's balance
(`+ (amount - fee - tax)` for Deposit/Income/Sell, `-` for the others); this is
the spec-side summand used to state the balance claims. -/
def txSigned (t : Tx) : ℚ :=
  let amt := ensureNumber t.amount 0 - ensureNumber t.fee 0 - ensureNumber t.tax 0
  match t.type with
  | TxType.Deposit | TxType.Income | TxType.Sell => amt
  | TxType.Withdraw | TxType.Expense | TxType.Buy => -amt

/-! ### Lemmas about the stable sort -/

theorem mem_insertDescBy {α : Type} {key : α → ℚ} (x z : α) (l : List α) :
    z ∈ insertDescBy key x l ↔ z = x ∨ z ∈ l := by
  induction l with
  | nil => simp [insertDescBy]
  | cons y ys ih =>
    by_cases h : key x < key y
    · simp only [insertDescBy, if_pos h, List.mem_cons, ih]
      tauto
    · simp only [insertDescBy, if_neg h, List.mem_cons]

theorem sortDescBy_cons {α : Type} {key : α → ℚ} (x : α) (xs : List α) :
    sortDescBy key (x :: xs) = insertDescBy key x (sortDescBy key xs) := rfl

theorem mem_sortDescBy {α : Type} {key : α → ℚ} (z : α) (l : List α) :
    z ∈ sortDescBy key l ↔ z ∈ l := by
  induction l with
  | nil => simp [sortDescBy]
  | cons x xs ih =>
    rw [sortDescBy_cons, mem_insertDescBy, ih, List.mem_cons]

theorem sorted_insertDescBy {α : Type} {key : α → ℚ} (x : α) (l : List α)
    (h : l.Pairwise (fun a b => key b ≤ key a)) :
    (insertDescBy key x l).Pairwise (fun a b => key b ≤ key a) := by
  induction l with
  | nil => simp [insertDescBy]
  | cons y ys ih =>
    rcases List.pairwise_cons.mp h with ⟨hy, hys⟩
    by_cases hk : key x < key y
    · simp only [insertDescBy, if_pos hk]
      refine List.pairwise_cons.mpr ⟨?_, ih hys⟩
      intro z hz
      rcases (mem_insertDescBy x z ys).mp hz with rfl | hz
      · exact le_of_lt hk
      · exact hy z hz
    · simp only [insertDescBy, if_neg hk]
      refine List.pairwise_cons.mpr ⟨?_, h⟩
      intro z hz
      rcases List.mem_cons.mp hz with rfl | hz
      · exact le_of_not_lt hk
      · exact le_trans (hy z hz) (le_of_not_lt hk)

theorem sorted_sortDescBy {α : Type} {key : α → ℚ} (l : List α) :
    (sortDescBy key l).Pairwise (fun a b => key b ≤ key a) := by
  induction l with
  | nil => simp [sortDescBy]
  | cons x xs ih =>
    rw [sortDescBy_cons]
    exact sorted_insertDescBy x _ ih

theorem pairwise_insertDescBy {α : Type} {key : α → ℚ} {Q : α → α → Prop} (x : α) (l : List α)
    (hQ : ∀ y z, key z < key y → Q y z)
    (hl : l.Pairwise Q) (hx : ∀ z ∈ l, Q x z) :
    (insertDescBy key x l).Pairwise Q := by
  induction l with
  | nil => simp [insertDescBy]
  | cons y ys ih =>
    rcases List.pairwise_cons.mp hl with ⟨hy, hys⟩
    by_cases hk : key x < key y
    · simp only [insertDescBy, if_pos hk]
      refine List.pairwise_cons.mpr
        ⟨?_, ih hys (fun z hz => hx z (List.mem_cons_of_mem y hz))⟩
      intro z hz
      rcases (mem_insertDescBy x z ys).mp hz with rfl | hz
      · exact hQ y z hk
      · exact hy z hz
    · simp only [insertDescBy, if_neg hk]
      exact List.pairwise_cons.mpr ⟨hx, hl⟩

theorem pairwise_sortDescBy {α : Type} {key : α → ℚ} {Q : α → α → Prop} (l : List α)
    (hQ : ∀ y z, key z < key y → Q y z) (hl : l.Pairwise Q) :
    (sortDescBy key l).Pairwise Q := by
  induction l with
  | nil => simp [sortDescBy]
  | cons x xs ih =>
    rcases List.pairwise_cons.mp hl with ⟨hx, hxs⟩
    rw [sortDescBy_cons]
    exact pairwise_insertDescBy x _ hQ (ih hxs)
      (fun z hz => hx z ((mem_sortDescBy z xs).mp hz))

theorem insertDescBy_ne_nil {α : Type} {key : α → ℚ} (x : α) (l : List α) :
    insertDescBy key x l ≠ [] := by
  cases l with
  | nil => simp [insertDescBy]
  | cons y ys => by_cases h : key x < key y <;> simp [insertDescBy, h]

theorem sortDescBy_eq_nil_iff {α : Type} {key : α → ℚ} (l : List α) :
    sortDescBy key l = [] ↔ l = [] := by
  cases l with
  | nil => simp [sortDescBy]
  | cons x xs => simp [sortDescBy_cons, insertDescBy_ne_nil]

theorem head?_sortDescBy_max {α : Type} {key : α → ℚ} {l : List α} {o : α}
    (h : (sortDescBy key l).head? = some o) :
    o ∈ l ∧ ∀ z ∈ l, key z ≤ key o := by
  rcases hs : sortDescBy key l with _ | ⟨a, rest⟩
  · rw [hs] at h; simp at h
  · rw [hs] at h
    simp only [List.head?_cons, Option.some.injEq] at h
    subst h
    constructor
    · have ha : a ∈ sortDescBy key l := by rw [hs]; exact List.mem_cons_self a rest
      exact (mem_sortDescBy a l).mp ha
    · intro z hz
      have hz' : z ∈ sortDescBy key l := (mem_sortDescBy z l).mpr hz
      rw [hs] at hz'
      rcases List.mem_cons.mp hz' with rfl | hz''
      · exact le_refl _
      · have hsorted : (sortDescBy key l).Pairwise (fun a b => key b ≤ key a) :=
          sorted_sortDescBy l
        rw [hs] at hsorted
        exact (List.pairwise_cons.mp hsorted).1 z hz''

/-! ### Claim theorems -/

/-- Claim C3: for every target-allocation map and actual-allocation map, the
drift list is sorted in descending order of `|diff|`, and two entries with
equal `|diff|` appear in the original asset-type enumeration order. -/
theorem drift_sorted_stable (target : AssetType → Option ℚ) (actual : AssetType → ℚ) :
    (driftList target actual).Pairwise (fun a b => |b.diff| ≤ |a.diff|) ∧
    (driftList target actual).Pairwise
      (fun a b => |a.diff| = |b.diff| → typeIdx a.type < typeIdx b.type) := by
  constructor
  · exact sorted_sortDescBy _
  · apply pairwise_sortDescBy
    · intro y z hk heq
      exact absurd heq (ne_of_gt hk)
    · unfold driftRaw
      rw [List.pairwise_map]
      have hidx : ASSET_TYPES.Pairwise (fun t u => typeIdx t < typeIdx u) := by decide
      exact hidx.imp (fun h => fun _ => h)

/-- Claim C4: a drift entry is in `rebalanceAlerts` iff its absolute diff is
greater than or equal to the threshold (so exact equality alerts). -/
theorem rebalanceAlerts_iff (driftL : List DriftEntry) (threshold : Option ℚ) (d : DriftEntry) :
    d ∈ rebalanceAlerts driftL threshold ↔ d ∈ driftL ∧ threshold.getD 5 ≤ |d.diff| := by
  simp [rebalanceAlerts, List.mem_filter]

/-- Claim C7: deleting an account removes exactly the accounts with that id and
every transaction/position referencing it, and keeps the remaining
accounts/transactions/positions unchanged (as sublists, so order and
multiplicity are preserved). -/
theorem removeAccount_cascade (s : RecordSet) (accId : String) :
    (∀ a, a ∈ (removeAccount s accId).accounts ↔ a ∈ s.accounts ∧ a.id ≠ accId) ∧
    (∀ t, t ∈ (removeAccount s accId).transactions ↔ t ∈ s.transactions ∧ t.accountId ≠ accId) ∧
    (∀ p, p ∈ (removeAccount s accId).positions ↔ p ∈ s.positions ∧ p.accountId ≠ accId) ∧
    (removeAccount s accId).accounts.Sublist s.accounts ∧
    (removeAccount s accId).transactions.Sublist s.transactions ∧
    (removeAccount s accId).positions.Sublist s.positions := by
  refine ⟨?_, ?_, ?_, ?_, ?_, ?_⟩ <;>
    simp [removeAccount, List.mem_filter, List.filter_sublist]

/-- Claim C9: if parsing the imported document fails, the import surfaces the
blocking alert and leaves the record set unchanged. -/
theorem importJSON_fail_keeps_state (parse : String → Option RecordSet) (text : String)
    (current : RecordSet) (h : parse text = none) :
    importJSON parse text current = (current, true) := by
  simp [importJSON, h]

/-! ### Concrete data for witnesses -/

def wSettings : Settings :=
  { baseCurrency := Currency.KRW, usdKrw := some 1350 }

def wTargets : Targets :=
  { allocation := fun _ => some 0, driftThreshold := some 5 }

def wEmpty : RecordSet :=
  { settings := wSettings, accounts := [], transactions := [], positions := [],
    goals := [], targets := wTargets }

def wParse : String → Option RecordSet := fun _ => none

/-- Witness for C9 at a concrete failing parse. -/
theorem importJSON_fail_witness :
    importJSON wParse "not json" wEmpty = (wEmpty, true) :=
  importJSON_fail_keeps_state wParse "not json" wEmpty rfl

/-! ### Balance lemmas (C1, C5) -/

/-- `applyTx` always writes `previous value (absent read as 0) + signed effect`
to the transaction's account key and keeps every other key. -/
theorem applyTx_eq (flows : String → Option ℚ) (t : Tx) :
    applyTx flows t = fun i =>
      if i = t.accountId then some ((flows t.accountId).getD 0 + txSigned t) else flows i := by
  funext i
  rcases t with ⟨tid, tdate, taid, ty, tam, tfe, ttx, tnote⟩
  cases ty <;> simp [applyTx, txSigned, sub_eq_add_neg]

/-- Folding the transactions changes the value read at any key by exactly the
sum of the signed effects of the transactions on that key. -/
theorem foldl_applyTx_getD (txs : List Tx) (f : String → Option ℚ) (k : String) :
    ((txs.foldl applyTx f) k).getD 0
      = (f k).getD 0 + ((txs.filter (fun t => t.accountId = k)).map txSigned).sum := by
  induction txs generalizing f with
  | nil => simp
  | cons t ts ih =>
    rw [List.foldl_cons, ih, applyTx_eq]
    by_cases h : t.accountId = k
    · subst h
      rw [List.filter_cons_of_pos (by simp), List.map_cons, List.sum_cons]
      simp
      ring
    · have h' : ¬(k = t.accountId) := fun hk => h hk.symm
      simp only [if_neg h']
      rw [List.filter_cons_of_neg (by simp [h])]

/-- A key that is no account's id is untouched by the opening-balance loop. -/
theorem foldl_flowsStep_not_mem (accounts : List Account) (g : String → Option ℚ) (k : String)
    (hk : k ∉ accounts.map Account.id) :
    accounts.foldl flowsStep g k = g k := by
  induction accounts generalizing g with
  | nil => simp
  | cons a rest ih =>
    simp only [List.map_cons, List.mem_cons] at hk
    push_neg at hk
    rw [List.foldl_cons, ih _ hk.2]
    simp [flowsStep, hk.1]

/-- With pairwise-distinct account ids, the opening-balance loop stores each
account's coerced opening balance under its id. -/
theorem foldl_flowsStep_mem (accounts : List Account) (g : String → Option ℚ) (a : Account)
    (ha : a ∈ accounts) (hnd : (accounts.map Account.id).Nodup) :
    accounts.foldl flowsStep g a.id = some (ensureNumber a.openingBalance 0) := by
  induction accounts generalizing g with
  | nil => cases ha
  | cons b rest ih =>
    simp only [List.map_cons, List.nodup_cons] at hnd
    rw [List.foldl_cons]
    rcases List.mem_cons.mp ha with rfl | ha'
    · rw [foldl_flowsStep_not_mem rest _ _ hnd.1]
      simp [flowsStep]
    · exact ih _ ha' hnd.2

/-- The balance the `cashFlows` memo assigns to an account of the record set. -/
theorem cashFlows_getD (accounts : List Account) (txs : List Tx) (a : Account)
    (ha : a ∈ accounts) (hnd : (accounts.map Account.id).Nodup) :
    ((cashFlows accounts txs) a.id).getD 0
      = ensureNumber a.openingBalance 0
        + ((txs.filter (fun t => t.accountId = a.id)).map txSigned).sum := by
  rw [cashFlows, foldl_applyTx_getD, flowsInit, foldl_flowsStep_mem accounts _ a ha hnd]
  simp

/-- Claim C1: each account's computed balance is its coerced opening balance
plus the sum of `±(amount − fee − tax)` over exactly its own transactions
(`+` for Deposit/Income/Sell, `−` for Withdraw/Expense/Buy); in particular,
with no transactions the balance is the opening balance.  Account ids are
pairwise distinct per the data model (ids are unique opaque strings). -/
theorem computeAccountBalances_spec (s : RecordSet)
    (hnd : (s.accounts.map Account.id).Nodup) :
    ∀ ab ∈ accountBalances s,
      ab.balance
        = ensureNumber ab.acct.openingBalance 0
          + ((s.transactions.filter (fun t => t.accountId = ab.acct.id)).map txSigned).sum
      ∧ (s.transactions = [] → ab.balance = ensureNumber ab.acct.openingBalance 0) := by
  intro ab hab
  rw [accountBalances, List.mem_map] at hab
  rcases hab with ⟨a, ha, rfl⟩
  refine ⟨cashFlows_getD s.accounts s.transactions a ha hnd, ?_⟩
  intro he
  have h1 := cashFlows_getD s.accounts s.transactions a ha hnd
  rw [he] at h1
  simp only [List.filter_nil, List.map_nil, List.sum_nil, add_zero] at h1
  show ((cashFlows s.accounts s.transactions a.id)).getD 0 = ensureNumber a.openingBalance 0
  rw [he]
  exact h1

def wAcct : Account :=
  { id := "a1", name := "checking", type := AssetType.Cash, currency := Currency.KRW,
    openingBalance := some 2000000 }

def wTx : Tx :=
  { id := "t1", date := "2026-01-15", accountId := "a1", type := TxType.Deposit,
    amount := some 1000000, fee := some 0, tax := some 0, note := "" }

def wS1 : RecordSet :=
  { settings := wSettings, accounts := [wAcct], transactions := [wTx], positions := [],
    goals := [], targets := wTargets }

def wAB : AccountBal :=
  { acct := wAcct, balance := 3000000, balanceBase := JSNum.num 3000000 }

/-- Witness for C1 on the spec's scenario: opening 2,000,000 and one Deposit of
1,000,000 (fee 0, tax 0) yields balance 3,000,000. -/
theorem computeAccountBalances_witness :
    wAB.balance
      = ensureNumber wAB.acct.openingBalance 0
        + ((wS1.transactions.filter (fun t => t.accountId = wAB.acct.id)).map txSigned).sum
      ∧ (wS1.transactions = [] → wAB.balance = ensureNumber wAB.acct.openingBalance 0) :=
  computeAccountBalances_spec wS1 (by decide) wAB
    (by
      have h : accountBalances wS1 = [wAB] := by
        simp [accountBalances, wS1, wAcct, wAB, wTx, wSettings, cashFlows, flowsInit, flowsStep,
          applyTx, ensureNumber, toBase]
        norm_num
      rw [h]
      exact List.mem_singleton_self wAB)

/-- `applyTx` steps for two transactions commute. -/
theorem applyTx_comm (f : String → Option ℚ) (t₁ t₂ : Tx) :
    applyTx (applyTx f t₁) t₂ = applyTx (applyTx f t₂) t₁ := by
  funext i
  simp only [applyTx_eq]
  by_cases h : t₁.accountId = t₂.accountId
  · by_cases hi : i = t₂.accountId
    · simp [hi, h]
      ring
    · have hi1 : ¬ i = t₁.accountId := fun hh => hi (hh.trans h)
      simp [hi, hi1]
  · by_cases hi2 : i = t₂.accountId <;> by_cases hi1 : i = t₁.accountId
    · exact absurd (hi1.symm.trans hi2) h
    · simp [hi2, hi1, Ne.symm h]
    · simp [hi2, hi1, h]
    · simp [hi2, hi1]

/-- Claim C5: `cashFlows` (hence `computeAccountBalances`) is invariant under
permuting the transaction list: the fold is pure addition/subtraction per
account key. -/
theorem cashFlows_perm (accounts : List Account) {txs₁ txs₂ : List Tx}
    (h : txs₁.Perm txs₂) :
    cashFlows accounts txs₁ = cashFlows accounts txs₂ := by
  unfold cashFlows
  exact h.foldl_eq' (fun x _ y _ z => applyTx_comm z x y) _

def wTxB : Tx :=
  { id := "t2", date := "2026-02-01", accountId := "a1", type := TxType.Expense,
    amount := some 50000, fee := some 100, tax := some 0, note := "" }

/-- Witness for C5 on a concrete two-element permutation. -/
theorem cashFlows_perm_witness :
    cashFlows [wAcct] [wTx, wTxB] = cashFlows [wAcct] [wTxB, wTx] :=
  cashFlows_perm [wAcct] (List.Perm.swap wTxB wTx [])

/-! ### Allocation (C2) -/

/-- A finite `JSNum` carries a rational value. -/
theorem exists_num_of_isFinite {x : JSNum} (h : x.isFinite = true) :
    ∃ q, x = JSNum.num q := by
  cases x with
  | num q => exact ⟨q, rfl⟩
  | nan => simp [JSNum.isFinite] at h
  | inf => simp [JSNum.isFinite] at h
  | ninf => simp [JSNum.isFinite] at h

def cexSettings : Settings := { baseCurrency := Currency.USD, usdKrw := some 0 }

def cexAcctKRW : Account :=
  { id := "k1", name := "krw cash", type := AssetType.Cash, currency := Currency.KRW,
    openingBalance := some 100 }

def cexAcctUSD : Account :=
  { id := "u1", name := "usd stock", type := AssetType.Stock, currency := Currency.USD,
    openingBalance := some 50 }

def cexC2 : RecordSet :=
  { settings := cexSettings, accounts := [cexAcctKRW, cexAcctUSD], transactions := [],
    positions := [], goals := [], targets := wTargets }

/-- Counterexample to C2 as stated: with base currency USD, a manual USD→KRW
rate of 0 (a finite number, accepted by `ensureNumber`), a KRW Cash account of
balance 100 and a USD Stock account of balance 50, the grand total is 50 > 0
(the `sum` helper counts the Infinity as 0) yet the Cash percentage is
`(Infinity / 50) * 100 = Infinity`, so the seven percentages sum to Infinity,
not 100. -/
theorem allocation_sums_cex :
    0 < totalAssetsBase cexC2 ∧
    allocationActual cexC2 AssetType.Cash = JSNum.inf ∧
    jsSumList (ASSET_TYPES.map (allocationActual cexC2)) = JSNum.inf := by
  have hbal : accountBalances cexC2
      = [{ acct := cexAcctKRW, balance := 100, balanceBase := JSNum.inf },
         { acct := cexAcctUSD, balance := 50, balanceBase := JSNum.num 50 }] := by
    norm_num +decide [accountBalances, cexC2, cexAcctKRW, cexAcctUSD, cexSettings,
      cashFlows, flowsInit, flowsStep, ensureNumber, toBase, jsDiv]
  have htot : totalsByType cexC2
      = fun t =>
          if t = AssetType.Cash then JSNum.inf
          else if t = AssetType.Stock then JSNum.num 50 else JSNum.num 0 := by
    funext t
    rw [totalsByType]
    rw [show positionsMV cexC2 = [] from rfl, hbal]
    cases t <;> norm_num +decide [jsAdd, cexAcctKRW, cexAcctUSD]
  have hT : totalAssetsBase cexC2 = 50 := by
    rw [totalAssetsBase, htot]
    norm_num +decide [sumNums, ASSET_TYPES]
  refine ⟨by rw [hT]; norm_num, ?_, ?_⟩
  · norm_num +decide [allocationActual, htot, hT, jsDivC, jsMulC]
  · norm_num +decide [jsSumList, ASSET_TYPES, allocationActual, htot, hT, jsDivC,
      jsMulC, jsDiv, jsAdd]

/-- Claim C2 (amended): the percentages sum to exactly 100 whenever the grand
total is strictly positive and every per-type total is a finite number (the
reachable exception is KRW→USD conversion with a manual rate of 0, which makes
a per-type total non-finite and the corresponding percentage ±Infinity/NaN);
every percentage is 0 whenever the grand total is zero. -/
theorem allocation_sums_finite (s : RecordSet) :
    (0 < totalAssetsBase s → (∀ t, (totalsByType s t).isFinite = true) →
      jsSumList (ASSET_TYPES.map (allocationActual s)) = JSNum.num 100) ∧
    (totalAssetsBase s = 0 → ∀ t, allocationActual s t = JSNum.num 0) := by
  constructor
  · intro hT hfin
    have hne : totalAssetsBase s ≠ 0 := ne_of_gt hT
    obtain ⟨q1, h1⟩ := exists_num_of_isFinite (hfin AssetType.Cash)
    obtain ⟨q2, h2⟩ := exists_num_of_isFinite (hfin AssetType.Stock)
    obtain ⟨q3, h3⟩ := exists_num_of_isFinite (hfin AssetType.ETF)
    obtain ⟨q4, h4⟩ := exists_num_of_isFinite (hfin AssetType.Bond)
    obtain ⟨q5, h5⟩ := exists_num_of_isFinite (hfin AssetType.Crypto)
    obtain ⟨q6, h6⟩ := exists_num_of_isFinite (hfin AssetType.RealEstate)
    obtain ⟨q7, h7⟩ := exists_num_of_isFinite (hfin AssetType.Other)
    have hdef : totalAssetsBase s = q1 + q2 + q3 + q4 + q5 + q6 + q7 := by
      simp [totalAssetsBase, sumNums, ASSET_TYPES, h1, h2, h3, h4, h5, h6, h7]
    simp only [jsSumList, ASSET_TYPES, List.map_cons, List.map_nil, List.foldl_cons,
      List.foldl_nil, allocationActual, if_pos hT, h1, h2, h3, h4, h5, h6, h7,
      jsDivC, jsDiv, if_neg hne, jsMulC, jsAdd, JSNum.num.injEq]
    field_simp
    rw [hdef]
    ring
  · intro h0 t
    simp [allocationActual, h0]

/-- Evaluation of the per-type totals of the witness record set `wS1`. -/
theorem totalsByType_wS1_eval :
    totalsByType wS1
      = fun t => if t = AssetType.Cash then JSNum.num 3000000 else JSNum.num 0 := by
  have hbal : accountBalances wS1 = [wAB] := by
    simp [accountBalances, wS1, wAcct, wAB, wTx, wSettings, cashFlows, flowsInit,
      flowsStep, applyTx, ensureNumber, toBase]
    norm_num
  funext t
  rw [totalsByType]
  rw [show positionsMV wS1 = [] from rfl, hbal]
  cases t <;> norm_num [jsAdd, wAB, wAcct]

/-- Witness for C2 (amended) on `wS1`: grand total 3,000,000 > 0, all per-type
totals finite, percentages sum to 100. -/
theorem allocation_sums_finite_witness :
    jsSumList (ASSET_TYPES.map (allocationActual wS1)) = JSNum.num 100 :=
  (allocation_sums_finite wS1).1
    (by
      rw [totalAssetsBase, totalsByType_wS1_eval]
      norm_num +decide [sumNums, ASSET_TYPES])
    (by
      intro t
      rw [totalsByType_wS1_eval]
      cases t <;> simp +decide [JSNum.isFinite])

/-! ### Non-finite propagation (C6) -/

def cPos : Position :=
  { id := "p0", accountId := "a1", symbol := "XX", name := "XX",
    assetType := AssetType.Stock, qty := some 1, avgPrice := some 0,
    currency := Currency.KRW, lastPrice := some 0 }

def cState : RecordSet :=
  { settings := wSettings, accounts := [], transactions := [], positions := [cPos],
    goals := [], targets := wTargets }

/-- Counterexample to C6 as stated: a position whose coerced average cost and
last price are both zero makes the derived `positionsMV` row carry
`pnlPct = NaN` (JS computes `(0 / 0 - 1) * 100 = NaN`), so NaN does reach a
derived output. -/
theorem positionsMV_nan_cex :
    (positionsMV cState).map (fun pm => pm.pnlPct) = [JSNum.nan] := by
  simp [positionsMV, cState, cPos, pnlPctOf, ensureNumber, jsDiv, jsSubC, jsMulC]

/-- Characterization of the non-finite cases of `pnlPct` (helper for C6): it
is `NaN` exactly when the coerced average cost and coerced last price are both
zero, and finite exactly when the coerced average cost is nonzero. -/
theorem pnlPct_nonfinite_iff (p : Position) :
    ((pnlPctOf p).isNaN = true
        ↔ (ensureNumber p.avgPrice 0 = 0 ∧ ensureNumber p.lastPrice 0 = 0)) ∧
    ((pnlPctOf p).isFinite = true ↔ ensureNumber p.avgPrice 0 ≠ 0) := by
  unfold pnlPctOf
  by_cases ha : ensureNumber p.avgPrice 0 = 0
  · by_cases hl : ensureNumber p.lastPrice 0 = 0
    · simp [ha, hl, jsDiv, jsSubC, jsMulC, JSNum.isNaN, JSNum.isFinite]
    · by_cases hlp : 0 < ensureNumber p.lastPrice 0 <;>
        simp [ha, hl, hlp, jsDiv, jsSubC, jsMulC, JSNum.isNaN, JSNum.isFinite,
          show ¬(100 : ℚ) = 0 by norm_num, show (0 : ℚ) < 100 by norm_num]
  · simp [ha, jsDiv, jsSubC, jsMulC, JSNum.isNaN, JSNum.isFinite]

/-- With a nonzero coerced rate, `toBase` always yields a finite number
(helper for C6). -/
theorem toBase_finite (settings : Settings) (amount : ℚ) (cur : Currency)
    (hr : ensureNumber settings.usdKrw 1350 ≠ 0) :
    (toBase settings amount cur).isFinite = true := by
  unfold toBase
  split_ifs <;> simp [jsDiv, hr, JSNum.isFinite]

/-- Claim C6 (amended): non-numeric/non-finite inputs are coerced to 0
everywhere and no operation throws, but two unguarded divisions do reach
derived outputs: (a) a position's percentage P/L is `NaN` exactly when its
coerced average cost and last price are both zero and non-finite exactly when
the coerced average cost is zero; (b) base-currency conversion is non-finite
exactly when converting KRW amounts to a USD base with a coerced manual rate
of `0` — whenever the rate is nonzero, every `balanceBase` and
`marketValueBase` (hence every conversion feeding totals, allocation and the
series) is a finite number. -/
theorem nonfinite_sources (s : RecordSet) (p : Position) :
    ((pnlPctOf p).isNaN = true
        ↔ (ensureNumber p.avgPrice 0 = 0 ∧ ensureNumber p.lastPrice 0 = 0)) ∧
    ((pnlPctOf p).isFinite = true ↔ ensureNumber p.avgPrice 0 ≠ 0) ∧
    (∀ (amount : ℚ) (cur : Currency),
      (toBase s.settings amount cur).isFinite = false
        ↔ (cur = Currency.KRW ∧ s.settings.baseCurrency = Currency.USD
            ∧ ensureNumber s.settings.usdKrw 1350 = 0)) ∧
    (ensureNumber s.settings.usdKrw 1350 ≠ 0 →
      (∀ ab ∈ accountBalances s, ab.balanceBase.isFinite = true) ∧
      (∀ pm ∈ positionsMV s, pm.marketValueBase.isFinite = true)) := by
  refine ⟨(pnlPct_nonfinite_iff p).1, (pnlPct_nonfinite_iff p).2, ?_, ?_⟩
  · intro amount cur
    by_cases hr : ensureNumber s.settings.usdKrw 1350 = 0
    · cases hb : s.settings.baseCurrency <;> cases cur <;>
        simp [toBase, hb, hr, jsDiv, JSNum.isFinite] <;>
        split_ifs <;> simp [JSNum.isFinite]
    · rw [toBase_finite s.settings amount cur hr]
      simp [hr]
  · intro hr
    constructor
    · intro ab hab
      rw [accountBalances, List.mem_map] at hab
      rcases hab with ⟨a, ha, rfl⟩
      exact toBase_finite s.settings _ a.currency hr
    · intro pm hpm
      rw [positionsMV, List.mem_map] at hpm
      rcases hpm with ⟨q, hq, rfl⟩
      exact toBase_finite s.settings _ q.currency hr

/-- Witness for C6 (amended) at the concrete record set `wS1`, whose coerced
rate 1350 is nonzero. -/
theorem nonfinite_sources_witness :
    (∀ ab ∈ accountBalances wS1, ab.balanceBase.isFinite = true) ∧
    (∀ pm ∈ positionsMV wS1, pm.marketValueBase.isFinite = true) :=
  (nonfinite_sources wS1 cPos).2.2.2
    (by norm_num [ensureNumber, wS1, wSettings])

/-! ### Rebalance suggestion (C8) -/

/-- The first element of the sorted positive-diff entries is a maximal
overweight entry of the drift list. -/
theorem head?_pos_filter_max {driftL : List DriftEntry} {o : DriftEntry}
    (hp : (sortDescBy (fun d => d.diff) (driftL.filter (fun d => 0 < d.diff))).head?
      = some o) :
    o ∈ driftL ∧ 0 < o.diff ∧ ∀ d ∈ driftL, 0 < d.diff → d.diff ≤ o.diff := by
  obtain ⟨hmem, hmax⟩ := head?_sortDescBy_max hp
  have h1 := List.mem_filter.mp hmem
  refine ⟨h1.1, by simpa using h1.2, ?_⟩
  intro d hd hdp
  exact hmax d (List.mem_filter.mpr ⟨hd, by simpa using hdp⟩)

/-- The first element of the ascending-sorted negative-diff entries is a
minimal (most underweight) entry of the drift list. -/
theorem head?_neg_filter_min {driftL : List DriftEntry} {u : DriftEntry}
    (hn : (sortDescBy (fun d => -d.diff) (driftL.filter (fun d => d.diff < 0))).head?
      = some u) :
    u ∈ driftL ∧ u.diff < 0 ∧ ∀ d ∈ driftL, d.diff < 0 → u.diff ≤ d.diff := by
  obtain ⟨hmem, hmax⟩ := head?_sortDescBy_max hn
  have h1 := List.mem_filter.mp hmem
  refine ⟨h1.1, by simpa using h1.2, ?_⟩
  intro d hd hdn
  have h2 := hmax d (List.mem_filter.mpr ⟨hd, by simpa using hdn⟩)
  linarith

/-- Claim C8: the suggestion proposes moving `min(overDiff, −underDiff)` percent
(of total assets) from a maximal positive-diff entry to a minimal negative-diff
entry, and is the no-suggestion signal exactly when there is no overweight or
no underweight entry. -/
theorem suggestRebalance_spec (driftL : List DriftEntry) (total : ℚ) :
    (suggestRebalance driftL total = none
        ↔ (∀ d ∈ driftL, ¬ 0 < d.diff) ∨ (∀ d ∈ driftL, ¬ d.diff < 0)) ∧
    (∀ sg, suggestRebalance driftL total = some sg →
        sg.over ∈ driftL ∧ 0 < sg.over.diff
        ∧ (∀ d ∈ driftL, 0 < d.diff → d.diff ≤ sg.over.diff)
        ∧ sg.under ∈ driftL ∧ sg.under.diff < 0
        ∧ (∀ d ∈ driftL, d.diff < 0 → sg.under.diff ≤ d.diff)
        ∧ sg.movePct = min sg.over.diff (-sg.under.diff)
        ∧ sg.moveAmount = total * (sg.movePct / 100)) := by
  have hposNone :
      ∀ (h : (sortDescBy (fun d => d.diff) (driftL.filter (fun d => 0 < d.diff))).head?
        = none), ∀ d ∈ driftL, ¬ 0 < d.diff := by
    intro h
    rw [List.head?_eq_none_iff, sortDescBy_eq_nil_iff, List.filter_eq_nil_iff] at h
    intro d hd
    simpa using h d hd
  have hnegNone :
      ∀ (h : (sortDescBy (fun d => -d.diff) (driftL.filter (fun d => d.diff < 0))).head?
        = none), ∀ d ∈ driftL, ¬ d.diff < 0 := by
    intro h
    rw [List.head?_eq_none_iff, sortDescBy_eq_nil_iff, List.filter_eq_nil_iff] at h
    intro d hd
    simpa using h d hd
  rcases hp : (sortDescBy (fun d => d.diff) (driftL.filter (fun d => 0 < d.diff))).head?
    with _ | o <;>
    rcases hn : (sortDescBy (fun d => -d.diff) (driftL.filter (fun d => d.diff < 0))).head?
      with _ | u <;>
    simp only [suggestRebalance, hp, hn]
  · refine ⟨iff_of_true ?_ (Or.inl (hposNone hp)), ?_⟩
    · trivial
    · intro sg hsg
      simp at hsg
  · refine ⟨iff_of_true ?_ (Or.inl (hposNone hp)), ?_⟩
    · trivial
    · intro sg hsg
      simp at hsg
  · refine ⟨iff_of_true ?_ (Or.inr (hnegNone hn)), ?_⟩
    · trivial
    · intro sg hsg
      simp at hsg
  · obtain ⟨hoMem, hoPos, hoMax⟩ := head?_pos_filter_max hp
    obtain ⟨huMem, huNeg, huMin⟩ := head?_neg_filter_min hn
    refine ⟨⟨fun h => by simp at h, fun h => ?_⟩, fun sg hsg => ?_⟩
    · rcases h with h | h
      · exact absurd hoPos (h o hoMem)
      · exact absurd huNeg (h u huMem)
    · injection hsg with hsg2
      subst hsg2
      exact ⟨hoMem, hoPos, hoMax, huMem, huNeg, huMin, rfl, rfl⟩

def wDriftOver : DriftEntry :=
  { type := AssetType.Stock, target := 45, actual := 50, diff := 5 }

def wDriftUnder : DriftEntry :=
  { type := AssetType.Cash, target := 20, actual := 15, diff := -5 }

def wDrift : List DriftEntry := [wDriftOver, wDriftUnder]

def wSg : Suggestion :=
  { over := wDriftOver, under := wDriftUnder, movePct := 5, moveAmount := 5 }

/-- Witness for C8 on a concrete drift list with one overweight and one
underweight entry. -/
theorem suggestRebalance_witness :
    wSg.over ∈ wDrift ∧ 0 < wSg.over.diff
    ∧ (∀ d ∈ wDrift, 0 < d.diff → d.diff ≤ wSg.over.diff)
    ∧ wSg.under ∈ wDrift ∧ wSg.under.diff < 0
    ∧ (∀ d ∈ wDrift, d.diff < 0 → wSg.under.diff ≤ d.diff)
    ∧ wSg.movePct = min wSg.over.diff (-wSg.under.diff)
    ∧ wSg.moveAmount = 100 * (wSg.movePct / 100) :=
  (suggestRebalance_spec wDrift 100).2 wSg
    (by
      simp [suggestRebalance, wDrift, wDriftOver, wDriftUnder, wSg, sortDescBy,
        insertDescBy]
      norm_num)

/-! ### Goals are outside the delete cascade (C10) -/

/-- A linked account id that matches no balance row contributes nothing:
filtering it out of the goal's id set leaves the computed progress unchanged. -/
theorem progressFor_filter_dangling (balances : List AccountBal) (g : Goal) (x : String)
    (hx : ∀ ab ∈ balances, ab.acct.id ≠ x) :
    progressFor balances { g with accountIds := g.accountIds.filter (fun i => i ≠ x) }
      = progressFor balances g := by
  have hfilter :
      balances.filter
          (fun ab => (g.accountIds.filter (fun i => i ≠ x)).contains ab.acct.id)
        = balances.filter (fun ab => g.accountIds.contains ab.acct.id) := by
    apply List.filter_congr
    intro ab hab
    have hne : ab.acct.id ≠ x := hx ab hab
    simp [List.mem_filter, hne]
  simp only [progressFor]
  rw [hfilter]

/-- Claim C10: deleting an account leaves the goals list (hence every goal's
linked-id set) unchanged, and the now-dangling account id contributes nothing
to a goal's computed progress: dropping it from the goal's linked ids yields
the same progress over the post-delete balances. -/
theorem removeAccount_goals_frame (s : RecordSet) (accId : String) (g : Goal) :
    (removeAccount s accId).goals = s.goals ∧
    progressFor (accountBalances (removeAccount s accId))
        { g with accountIds := g.accountIds.filter (fun i => i ≠ accId) }
      = progressFor (accountBalances (removeAccount s accId)) g := by
  refine ⟨rfl, ?_⟩
  apply progressFor_filter_dangling
  intro ab hab
  rw [accountBalances, List.mem_map] at hab
  rcases hab with ⟨a, ha, rfl⟩
  have ha2 : a ∈ s.accounts.filter (fun a => a.id ≠ accId) := ha
  have hdec := (List.mem_filter.mp ha2).2
  simpa using hdec

end Portfolio
